import Mathlib

set_option maxHeartbeats 1000000

/-!
# Verification of the serde_sheets record/grid marshaling core

Shallow embedding of `src/lib.rs`. The library moves data between typed
records and a Google-Sheets grid through an in-memory CSV text buffer:

* `write_page` serializes the records with the `csv` crate's `Writer`
  (default builder: delimiter `,`, quote `"`, terminator `\n`, minimal
  quoting, and — crucially — `has_headers = true`, so serializing structs
  emits a header row first), re-parses the buffer with a `Reader` built with
  `has_headers(false)`, and sends every parsed row to `values_update`
  after `values_clear`, with `value_input_option("USER_ENTERED")`.
* `append_row` serializes one record the same way, re-parses with
  `has_headers(true)` (so the generated header row is skipped) and sends the
  remaining rows to `values_append` with `value_input_option("USER_ENTERED")`.
* `read_all` fetches the grid, calls `.unwrap()` on the optional `values`
  (a panic when the store returns no values container), writes the rows back
  into a CSV buffer with `write_record`, and deserializes with
  `has_headers(true)` so the first row is the header and column→field
  matching is by header name.

The CSV text is purely internal: every string the reader model ever parses
in this development is a string the writer model produced, so the reader is
modelled on the fragment the default-configured `csv` crate writer emits
(records terminated by `\n`, quotes doubled inside quoted fields, blank
lines skipped by the reader).
-/

/-- A cell: one CSV field, a string modelled as a list of characters. -/
abbrev Cell := List Char

/-- A row of cells, as sent to / received from the sheets API. -/
abbrev CsvRow := List Cell

/-- A grid: list of rows (`Vec<Vec<String>>` on the Rust side). -/
abbrev CsvGrid := List CsvRow

/-! ## CSV writer (csv crate, default `WriterBuilder`, `QuoteStyle::Necessary`) -/

/-- A field must be quoted when it contains the delimiter, the quote
character, or a record-terminator character. -/
def needsQuote (f : Cell) : Bool :=
  f.any (fun c => c = ',' || c = '"' || c = '\n' || c = '\r')

/-- Double every quote character, as the writer does inside quoted fields. -/
def escQuotes : Cell → Cell
  | [] => []
  | c :: cs => if c = '"' then '"' :: '"' :: escQuotes cs else c :: escQuotes cs

/-- Render one field: quoted (with doubled inner quotes) when necessary,
verbatim otherwise. -/
def writeField (f : Cell) : List Char :=
  if needsQuote f then '"' :: (escQuotes f ++ ['"']) else f

/-- Render the fields of a record, separated by the delimiter. -/
def writeFields : CsvRow → List Char
  | [] => []
  | [f] => writeField f
  | f :: g :: fs => writeField f ++ ',' :: writeFields (g :: fs)

/-- Render one record followed by the terminator. A record consisting of a
single empty field is written as `""` (the csv crate quotes it so the line
is not mistaken for a blank line). -/
def writeRecordCSV (r : CsvRow) : List Char :=
  (if r = [[]] then ['"', '"'] else writeFields r) ++ ['\n']

/-- Render a whole grid: the concatenation of its rendered records. -/
def writeGridCSV (g : CsvGrid) : List Char :=
  (g.map writeRecordCSV).flatten

/-! ## CSV reader (csv crate, default `ReaderBuilder` on writer-produced text) -/

/-- Reader modes: at the start of a field, inside an unquoted field, inside a
quoted field, or just after a quote character within a quoted field. -/
inductive CsvMode
  | mStart
  | mUnq
  | mInq
  | mAfterq
deriving DecidableEq, Repr

/-- Reader state: current mode, the field and record being accumulated, and
the completed records. -/
structure CsvSt where
  mode : CsvMode
  field : Cell
  cur : CsvRow
  rows : CsvGrid
deriving DecidableEq, Repr

/-- One step of the reader on one character. Blank lines (a terminator seen
at the very start of a record) yield no record, as in the csv crate. -/
def csvStep (st : CsvSt) (c : Char) : CsvSt :=
  match st.mode with
  | .mStart =>
    if c = '"' then { st with mode := .mInq }
    else if c = ',' then { st with cur := st.cur ++ [st.field], field := [] }
    else if c = '\n' then
      if st.cur = [] then st
      else { st with cur := [], field := [], rows := st.rows ++ [st.cur ++ [st.field]] }
    else { st with mode := .mUnq, field := st.field ++ [c] }
  | .mUnq =>
    if c = ',' then { st with mode := .mStart, cur := st.cur ++ [st.field], field := [] }
    else if c = '\n' then
      { st with mode := .mStart, cur := [], field := [], rows := st.rows ++ [st.cur ++ [st.field]] }
    else { st with field := st.field ++ [c] }
  | .mInq =>
    if c = '"' then { st with mode := .mAfterq }
    else { st with field := st.field ++ [c] }
  | .mAfterq =>
    if c = '"' then { st with mode := .mInq, field := st.field ++ [c] }
    else if c = ',' then { st with mode := .mStart, cur := st.cur ++ [st.field], field := [] }
    else if c = '\n' then
      { st with mode := .mStart, cur := [], field := [], rows := st.rows ++ [st.cur ++ [st.field]] }
    else { st with mode := .mUnq, field := st.field ++ [c] }

/-- Flush the reader state at end of input: an unfinished record (any pending
field or fields) becomes the last record; a clean start-of-record state adds
nothing. -/
def csvFinish (st : CsvSt) : CsvGrid :=
  match st.mode with
  | .mStart => if st.cur = [] then st.rows else st.rows ++ [st.cur ++ [st.field]]
  | _ => st.rows ++ [st.cur ++ [st.field]]

/-- Parse a CSV text into its records. -/
def parseRecords (s : List Char) : CsvGrid :=
  csvFinish (s.foldl csvStep ⟨.mStart, [], [], []⟩)

/-! ## Round trip of the internal CSV buffer

The CSV text buffer is internal to each operation: the reader only ever sees
writer output. These lemmas show that parsing the rendered form of a grid
returns the grid, for any grid whose rows are non-empty (a record with zero
fields renders as a blank line, which the reader skips; the library's rows
always have at least one field when the record type has at least one field).
-/

/-- Mode in which the reader ends after consuming one rendered field from the
start-of-field state. -/
def endMode (f : Cell) : CsvMode :=
  if needsQuote f then .mAfterq else if f = [] then .mStart else .mUnq

/-! ## The serde primitive codec

The record types the library serializes are structs of primitive fields:
text, integer, boolean (§3 of the spec; floating point is outside this
embedding). Serde renders each field to one CSV cell and parses cells back
with the Rust `FromStr`-style parsers the csv crate's deserializer uses.
-/

/-- A primitive field type. -/
inductive PrimTy
  | tyText
  | tyInt
  | tyBool
deriving DecidableEq, Repr

/-- A primitive field value. -/
inductive Value
  | vText (s : Cell)
  | vInt (i : Int)
  | vBool (b : Bool)
deriving DecidableEq, Repr

/-- The type of a value. -/
def tyOf : Value → PrimTy
  | .vText _ => .tyText
  | .vInt _ => .tyInt
  | .vBool _ => .tyBool

/-- Digit-at-a-time decimal rendering, most significant digit first; the
first argument is fuel (any bound on the number renders it fully). -/
def renderNatAux : Nat → Nat → List Char
  | 0, _ => []
  | fuel + 1, n => if n = 0 then [] else renderNatAux fuel (n / 10) ++ [Nat.digitChar (n % 10)]

/-- Decimal rendering of a natural number (Rust integer `Display`). -/
def renderNat (n : Nat) : Cell :=
  if n = 0 then ['0'] else renderNatAux n n

/-- Decimal rendering of a signed integer (Rust integer `Display`). -/
def renderInt : Int → Cell
  | Int.ofNat n => renderNat n
  | Int.negSucc n => '-' :: renderNat (n + 1)

/-- Serde's rendering of one primitive value to a CSV cell. -/
def render : Value → Cell
  | .vText s => s
  | .vInt i => renderInt i
  | .vBool b => if b then "true".toList else "false".toList

/-- Value of a decimal digit character. -/
def digitVal (c : Char) : Option Nat :=
  if '0' ≤ c ∧ c ≤ '9' then some (c.toNat - '0'.toNat) else none

/-- Accumulating decimal parse. -/
def parseNatAux : List Char → Nat → Option Nat
  | [], acc => some acc
  | c :: cs, acc =>
    match digitVal c with
    | none => none
    | some d => parseNatAux cs (acc * 10 + d)

/-- Decimal parsing of a natural number (Rust `from_str` on digit strings). -/
def parseNat (s : Cell) : Option Nat :=
  if s = [] then none else parseNatAux s 0

/-- Decimal parsing of a signed integer (Rust `from_str`). -/
def parseInt (s : Cell) : Option Int :=
  match s with
  | '-' :: rest => (parseNat rest).map (fun n => -(n : Int))
  | _ => (parseNat s).map (fun n => (n : Int))

/-- The csv-crate deserializer's cell-to-value parse at each primitive type:
strings are taken verbatim, integers and booleans via `from_str`. -/
def parsePrim (ty : PrimTy) (s : Cell) : Option Value :=
  match ty with
  | .tyText => some (.vText s)
  | .tyInt => (parseInt s).map .vInt
  | .tyBool =>
    if s = "true".toList then some (.vBool true)
    else if s = "false".toList then some (.vBool false)
    else none

/-! ## Schema, records, encode

A record type is a struct with named primitive fields; serde's serializer
renders it to one CSV data row, and with `has_headers = true` (the builder
default used throughout `lib.rs`) a header row of field names is written
before the first serialized record.
-/

/-- One declared field of a record struct: its serde name and type. -/
structure SField where
  name : Cell
  ty : PrimTy
deriving DecidableEq, Repr

/-- A record schema: the struct's fields in declaration order. Rust struct
field names are distinct; theorems carry that as a `Nodup` hypothesis. -/
abbrev Schema := List SField

/-- A record: its field values in declaration order. -/
abbrev Record := List Value

/-- A record is well typed for a schema when the values match the declared
field types position by position. -/
def typedB (schema : Schema) (r : Record) : Bool :=
  match schema, r with
  | [], [] => true
  | fl :: fs, v :: vs => decide (tyOf v = fl.ty) && typedB fs vs
  | _, _ => false

/-- The header row: field names in declaration order. -/
def headerRow (schema : Schema) : CsvRow :=
  schema.map SField.name

/-- The data row of one record: rendered field values in declaration order. -/
def encodeRow (r : Record) : CsvRow :=
  r.map render

/-- The CSV buffer produced by serializing `records` with the csv crate's
`Writer` under the default builder: the header row is emitted when the first
record is serialized, so no records means an empty buffer and no header. -/
def serializeCSV (schema : Schema) (records : List Record) : List Char :=
  match records with
  | [] => []
  | _ => writeGridCSV (headerRow schema :: records.map encodeRow)

/-! ## The csv/serde deserializer (header-name keyed) -/

/-- Decode errors, discriminated as the csv crate's deserialize errors are: a
missing struct field names the field, a repeated header name is a duplicate
field, a cell that fails to parse names the column and the cell text, and a
data row whose width differs from the header's is a length error. -/
inductive DecErr
  | missingField (name : Cell)
  | dupField (name : Cell)
  | parseErr (name : Cell) (cell : Cell)
  | widthMismatch
deriving DecidableEq, Repr

/-- The serde-derive struct visitor on one (header name, cell) pair: the
name is matched against the schema's field names (first match); an unknown
name is ignored, a match on an already-filled slot is a duplicate-field
error, and otherwise the cell is parsed at the field's declared type into
the field's slot. `A` is the slot list, parallel to the schema. -/
def stepPair : Schema → List (Option Value) → (Cell × Cell) →
    Except DecErr (List (Option Value))
  | [], A, _ => .ok A
  | _ :: _, [], _ => .ok []
  | fl :: fs, a :: rest, p =>
    if fl.name = p.1 then
      match a with
      | some _ => .error (.dupField p.1)
      | none =>
        match parsePrim fl.ty p.2 with
        | none => .error (.parseErr p.1 p.2)
        | some v => .ok (some v :: rest)
    else
      match stepPair fs rest p with
      | .error e => .error e
      | .ok rest2 => .ok (a :: rest2)

/-- Process all (header name, cell) pairs in column order. -/
def decodePairs (schema : Schema) :
    List (Cell × Cell) → List (Option Value) → Except DecErr (List (Option Value))
  | [], A => .ok A
  | p :: ps, A =>
    match stepPair schema A p with
    | .error e => .error e
    | .ok A2 => decodePairs schema ps A2

/-- After all pairs: the first unfilled slot, in declaration order, is a
missing-field error; otherwise the completed record. -/
def finishAssign : Schema → List (Option Value) → Except DecErr Record
  | [], _ => .ok []
  | fl :: _, [] => .error (.missingField fl.name)
  | fl :: fs, a :: rest =>
    match a with
    | none => .error (.missingField fl.name)
    | some v => (finishAssign fs rest).map (fun vs => v :: vs)

/-- Deserialize one data row against the header row: cells are assigned to
fields by matching the header name, not by position. -/
def decodeRow (schema : Schema) (hdr row : CsvRow) : Except DecErr Record :=
  (decodePairs schema (hdr.zip row) (schema.map (fun _ => none))).bind
    (finishAssign schema)

/-- Deserialize a parsed grid with `has_headers(true)`: row 0 is the header,
each later row must have the header's width and decodes by header name; a
grid with no rows at all yields no records. -/
def decodeGrid (schema : Schema) (g : CsvGrid) : Except DecErr (List Record) :=
  match g with
  | [] => .ok []
  | hdr :: rows =>
    rows.mapM (fun r =>
      if r.length = hdr.length then decodeRow schema hdr r else .error .widthMismatch)

/-! ## The Grid Store collaborator and the three operations -/

/-- An opaque store/transport failure (network, auth, quota). -/
structure StoreErr where
  code : Nat
deriving DecidableEq, Repr

/-- One mutating network call to the Grid Store, as issued by the library.
Update and append carry the `value_input_option` string set explicitly. -/
inductive StoreCall
  | clearCall
  | updateCall (inputOption : Cell) (values : CsvGrid)
  | appendCall (inputOption : Cell) (values : CsvGrid)
deriving DecidableEq, Repr

/-- Outcomes the external Grid Store returns for each kind of call. The
`values` member of a `values_get` response is optional. -/
structure StoreBehavior where
  clearRes : Except StoreErr Unit
  updateRes : Except StoreErr Unit
  appendRes : Except StoreErr Unit
  getRes : Except StoreErr (Option CsvGrid)

/-- The `value_input_option` the library passes on every update and append. -/
def userEntered : Cell :=
  "USER_ENTERED".toList

/-- The grid `write_page` sends to `values_update`: the serialized records
re-parsed with `has_headers(false)`, i.e. every row of the buffer, the
generated header row included. -/
def writePageValues (schema : Schema) (records : List Record) : CsvGrid :=
  parseRecords (serializeCSV schema records)

/-- The store calls `write_page` issues, in order: `values_clear` first, and
`values_update` only if the clear succeeded. -/
def write_page_calls (b : StoreBehavior) (schema : Schema) (records : List Record) :
    List StoreCall :=
  match b.clearRes with
  | .error _ => [.clearCall]
  | .ok _ => [.clearCall, .updateCall userEntered (writePageValues schema records)]

/-- The result `write_page` returns: the clear's error if it failed, else
the update's result. -/
def write_page_result (b : StoreBehavior) (_schema : Schema) (_records : List Record) :
    Except StoreErr Unit :=
  match b.clearRes with
  | .error e => .error e
  | .ok _ => b.updateRes

/-- The rows `append_row` sends to `values_append`: the single record
serialized with its header, re-parsed with `has_headers(true)` so the
header record is skipped. -/
def appendRowValues (schema : Schema) (r : Record) : CsvGrid :=
  (parseRecords (serializeCSV schema [r])).tail

/-- The store calls `append_row` issues: one append. -/
def append_row_calls (schema : Schema) (r : Record) : List StoreCall :=
  [.appendCall userEntered (appendRowValues schema r)]

/-- Typed errors of `read_all` (`SheetsError` causes reachable from it). -/
inductive ReadErr
  | store (e : StoreErr)
  | dec (e : DecErr)
  | unequalLengths
deriving DecidableEq, Repr

/-- Outcome of `read_all`: records, a typed error value returned to the
caller, or the `unwrap` panic — a crash, not a returned value. -/
inductive ReadOutcome
  | ok (records : List Record)
  | error (e : ReadErr)
  | panicked
deriving DecidableEq, Repr

/-- Rows the csv writer accepts without an `UnequalLengths` error: every row
has the first row's width. -/
def rowsWritable : CsvGrid → Bool
  | [] => true
  | r :: rs => rs.all (fun x => decide (x.length = r.length))

/-- Wrap a decode result as a `read_all` outcome: a decode failure is the
csv error the library returns. -/
def toOutcome : Except DecErr (List Record) → ReadOutcome
  | .ok recs => .ok recs
  | .error e => .error (.dec e)

/-- The decode stage of `read_all` on the fetched rows: write them into a
CSV buffer with `write_record` (an unequal row length is a typed csv
error), re-parse with `has_headers(true)`, deserialize by header name. -/
def readDecode (schema : Schema) (rows : CsvGrid) : ReadOutcome :=
  if rowsWritable rows then
    toOutcome (decodeGrid schema (parseRecords (writeGridCSV rows)))
  else .error .unequalLengths

/-- `read_all`: fetch the range, `unwrap()` the response's optional `values`
(the panic when the container is absent), then decode. -/
def read_all (b : StoreBehavior) (schema : Schema) : ReadOutcome :=
  match b.getRes with
  | .error e => .error (.store e)
  | .ok none => .panicked
  | .ok (some rows) => readDecode schema rows

/-! ## Decoder correctness

The stored row is viewed as an association of field names to values: the
header row carries the names in column order and the data row the rendered
values. `decodeRow` must assign each schema field the value its *name* is
associated with, wherever that column sits.
-/

/-- The (header name, rendered value) pairs of a stored row described by the
association `ρ` of fields to values, in column order. -/
def pairsOf (ρ : List (SField × Value)) : List (Cell × Cell) :=
  ρ.map (fun p => (p.1.name, render p.2))

/-- The column names of `ρ`, in column order. -/
def namesOf (ρ : List (SField × Value)) : List Cell :=
  ρ.map (fun p => p.1.name)

/-- The value `ρ` associates with a field name (first occurrence). -/
def valueFor (ρ : List (SField × Value)) (n : Cell) : Value :=
  match ρ.find? (fun p => decide (p.1.name = n)) with
  | some p => p.2
  | none => .vText []

/-- The data row of the association `ρ`: rendered values in column order. -/
def rowOf (ρ : List (SField × Value)) : CsvRow :=
  ρ.map (fun p => render p.2)

/-! ## Concrete fixtures used by witnesses and counterexamples -/

/-- A three-field schema: text, integer, boolean. -/
def exSchema : Schema :=
  [⟨"name".toList, .tyText⟩, ⟨"n".toList, .tyInt⟩, ⟨"flag".toList, .tyBool⟩]

/-- A record whose text field contains a comma, quotes and a newline. -/
def exRecord : Record :=
  [.vText "a,\"b\"\nc".toList, .vInt (-42), .vBool true]

/-- A two-field schema for order/missing-column scenarios. -/
def exSchema2 : Schema :=
  [⟨"a".toList, .tyInt⟩, ⟨"b".toList, .tyText⟩]

/-- A store whose calls all succeed and whose read returns no values. -/
def exBehavior : StoreBehavior :=
  ⟨.ok (), .ok (), .ok (), .ok none⟩

/-- A store whose clear fails with error code 7. -/
def exBehaviorFail : StoreBehavior :=
  ⟨.error ⟨7⟩, .ok (), .ok (), .ok none⟩

/-- A header/value association whose column order is the reverse of
`exSchema2`'s declaration order. -/
def exPerm : List (SField × Value) :=
  [(⟨"b".toList, .tyText⟩, .vText "x".toList), (⟨"a".toList, .tyInt⟩, .vInt 5)]

/-- A one-column association carrying only the first field of `exSchema2`. -/
def exRhoA : List (SField × Value) :=
  [(⟨"a".toList, .tyInt⟩, .vInt 1)]

example : parseRecords ("a,b\nc,d\n".toList) = [["a".toList, "b".toList], ["c".toList, "d".toList]] := by decide

example : writeRecordCSV ["a,b".toList, "x\"y".toList] = "\"a,b\",\"x\"\"y\"\n".toList := by decide

example : parseRecords (writeGridCSV [["a,\nb".toList, "".toList], ["".toList]]) = [["a,\nb".toList, "".toList], ["".toList]] := by decide

theorem csvStep_mUnq_run (cs : List Char) (h : needsQuote cs = false) :
    ∀ fld cur rows, List.foldl csvStep ⟨.mUnq, fld, cur, rows⟩ cs = ⟨.mUnq, fld ++ cs, cur, rows⟩ := by
  induction cs with
  | nil => intro fld cur rows; simp
  | cons c cs ih =>
    intro fld cur rows
    simp only [needsQuote, List.any_cons, Bool.or_eq_false_iff,
      decide_eq_false_iff_not] at h
    obtain ⟨⟨⟨⟨h1, h2⟩, h3⟩, h4⟩, htl⟩ := h
    rw [List.foldl_cons]
    have hstep : csvStep ⟨.mUnq, fld, cur, rows⟩ c = ⟨.mUnq, fld ++ [c], cur, rows⟩ := by
      simp [csvStep, h1, h3]
    rw [hstep, ih (by simp only [needsQuote]; exact htl)]
    simp

theorem csvStep_mInq_run (f : Cell) :
    ∀ fld cur rows, List.foldl csvStep ⟨.mInq, fld, cur, rows⟩ (escQuotes f) = ⟨.mInq, fld ++ f, cur, rows⟩ := by
  induction f with
  | nil => intro fld cur rows; simp [escQuotes]
  | cons c cs ih =>
    intro fld cur rows
    by_cases hc : c = '"'
    · subst hc
      have hesc : escQuotes ('"' :: cs) = '"' :: '"' :: escQuotes cs := by
        simp [escQuotes]
      rw [hesc, List.foldl_cons, List.foldl_cons]
      have h1 : csvStep ⟨.mInq, fld, cur, rows⟩ '"' = ⟨.mAfterq, fld, cur, rows⟩ := by
        simp [csvStep]
      have h2 : csvStep ⟨.mAfterq, fld, cur, rows⟩ '"' = ⟨.mInq, fld ++ ['"'], cur, rows⟩ := by
        simp [csvStep]
      rw [h1, h2, ih]
      simp
    · have hesc : escQuotes (c :: cs) = c :: escQuotes cs := by
        simp [escQuotes, hc]
      rw [hesc, List.foldl_cons]
      have h1 : csvStep ⟨.mInq, fld, cur, rows⟩ c = ⟨.mInq, fld ++ [c], cur, rows⟩ := by
        simp [csvStep, hc]
      rw [h1, ih]
      simp

theorem csvStep_writeField (f : Cell) (cur : CsvRow) (rows : CsvGrid) :
    List.foldl csvStep ⟨.mStart, [], cur, rows⟩ (writeField f) = ⟨endMode f, f, cur, rows⟩ := by
  by_cases hq : needsQuote f
  · simp only [writeField, if_pos hq, endMode, if_pos hq]
    rw [List.foldl_cons]
    have h1 : csvStep ⟨.mStart, [], cur, rows⟩ '"' = ⟨.mInq, [], cur, rows⟩ := by
      simp [csvStep]
    rw [h1, List.foldl_append, csvStep_mInq_run f [] cur rows]
    have h2 : csvStep ⟨.mInq, f, cur, rows⟩ '"' = ⟨.mAfterq, f, cur, rows⟩ := by
      simp [csvStep]
    simp [h2]
  · simp only [writeField, if_neg hq, endMode, if_neg hq]
    cases f with
    | nil => simp
    | cons c cs =>
      have hq' : needsQuote (c :: cs) = false := by
        simpa using hq
      simp only [needsQuote, List.any_cons, Bool.or_eq_false_iff,
        decide_eq_false_iff_not] at hq'
      obtain ⟨⟨⟨⟨h1, h2⟩, h3⟩, h4⟩, htl⟩ := hq'
      rw [List.foldl_cons]
      have hstep : csvStep ⟨.mStart, [], cur, rows⟩ c = ⟨.mUnq, [c], cur, rows⟩ := by
        simp [csvStep, h1, h2, h3]
      rw [hstep, csvStep_mUnq_run cs (by simp only [needsQuote]; exact htl)]
      simp

theorem csvStep_writeFields_nl (r : CsvRow) :
    ∀ cur rows, r ≠ [] → (cur ≠ [] ∨ r ≠ [[]]) →
    List.foldl csvStep ⟨.mStart, [], cur, rows⟩ (writeFields r ++ ['\n']) =
      ⟨.mStart, [], [], rows ++ [cur ++ r]⟩ := by
  induction r with
  | nil => intro cur rows h _; exact absurd rfl h
  | cons f fs ih =>
    intro cur rows _ hblank
    cases fs with
    | nil =>
      rw [show writeFields [f] = writeField f from rfl]
      rw [List.foldl_append, csvStep_writeField]
      cases hfq : needsQuote f with
      | true => simp [endMode, hfq, csvStep]
      | false =>
        cases f with
        | nil =>
          have hcur : cur ≠ [] := by
            rcases hblank with h | h
            · exact h
            · exact absurd rfl h
          simp [endMode, hfq, csvStep, hcur]
        | cons c cs => simp [endMode, hfq, csvStep]
    | cons g gs =>
      rw [show writeFields (f :: g :: gs) = writeField f ++ ',' :: writeFields (g :: gs) from rfl]
      rw [List.append_assoc, List.foldl_append, csvStep_writeField, List.cons_append,
        List.foldl_cons]
      have hstep : csvStep ⟨endMode f, f, cur, rows⟩ ',' = ⟨.mStart, [], cur ++ [f], rows⟩ := by
        cases hfq : needsQuote f with
        | true => simp [endMode, hfq, csvStep]
        | false =>
          cases f with
          | nil => simp [endMode, hfq, csvStep]
          | cons c cs => simp [endMode, hfq, csvStep]
      rw [hstep, ih (cur ++ [f]) rows (by simp) (Or.inl (by simp))]
      simp

theorem csvStep_writeRecord (r : CsvRow) (rows : CsvGrid) (h : r ≠ []) :
    List.foldl csvStep ⟨.mStart, [], [], rows⟩ (writeRecordCSV r) = ⟨.mStart, [], [], rows ++ [r]⟩ := by
  by_cases he : r = [[]]
  · subst he
    have hw : writeRecordCSV [[]] = ['"', '"', '\n'] := by simp [writeRecordCSV]
    rw [hw, List.foldl_cons, List.foldl_cons, List.foldl_cons]
    have h1 : csvStep ⟨.mStart, [], [], rows⟩ '"' = ⟨.mInq, [], [], rows⟩ := by
      simp [csvStep]
    have h2 : csvStep ⟨.mInq, [], [], rows⟩ '"' = ⟨.mAfterq, [], [], rows⟩ := by
      simp [csvStep]
    have h3 : csvStep ⟨.mAfterq, [], [], rows⟩ '\n' = ⟨.mStart, [], [], rows ++ [[[]]]⟩ := by
      simp [csvStep]
    rw [h1, h2, h3]
    simp
  · have hw : writeRecordCSV r = writeFields r ++ ['\n'] := by simp [writeRecordCSV, he]
    rw [hw, csvStep_writeFields_nl r [] rows h (Or.inr he)]
    simp

theorem csvStep_writeGrid (g : CsvGrid) :
    ∀ rows, (∀ r ∈ g, r ≠ []) →
    List.foldl csvStep ⟨.mStart, [], [], rows⟩ (writeGridCSV g) = ⟨.mStart, [], [], rows ++ g⟩ := by
  induction g with
  | nil => intro rows _; simp [writeGridCSV]
  | cons r rs ih =>
    intro rows hne
    have hsplit : writeGridCSV (r :: rs) = writeRecordCSV r ++ writeGridCSV rs := by
      simp [writeGridCSV]
    rw [hsplit, List.foldl_append, csvStep_writeRecord r rows (hne r (by simp)),
      ih (rows ++ [r]) (fun x hx => hne x (by simp [hx]))]
    simp

/-- Round trip: parsing the rendered form of a grid whose rows are non-empty
returns exactly that grid. -/
theorem parseRecords_writeGridCSV (g : CsvGrid) (h : ∀ r ∈ g, r ≠ []) :
    parseRecords (writeGridCSV g) = g := by
  unfold parseRecords
  rw [csvStep_writeGrid g [] h]
  simp [csvFinish]

theorem digitVal_digitChar : ∀ d, d < 10 → digitVal (Nat.digitChar d) = some d := by
  decide

theorem parseNatAux_digits (l : List Nat) :
    ∀ acc, (∀ d ∈ l, d < 10) →
    parseNatAux (l.map Nat.digitChar) acc = some (l.foldl (fun a d => a * 10 + d) acc) := by
  induction l with
  | nil => intro acc _; simp [parseNatAux]
  | cons d t ih =>
    intro acc h
    have hd : d < 10 := h d (by simp)
    simp only [List.map_cons, parseNatAux, digitVal_digitChar d hd, List.foldl_cons]
    exact ih (acc * 10 + d) (fun x hx => h x (by simp [hx]))

theorem foldl_reverse_ofDigits (l : List Nat) :
    ∀ a, l.reverse.foldl (fun x d => x * 10 + d) a = a * 10 ^ l.length + Nat.ofDigits 10 l := by
  induction l with
  | nil => intro a; simp [Nat.ofDigits]
  | cons d t ih =>
    intro a
    rw [List.reverse_cons, List.foldl_append, ih a]
    simp only [List.foldl_cons, List.foldl_nil, Nat.ofDigits_cons, List.length_cons]
    ring

theorem renderNatAux_eq_digits : ∀ (fuel n : Nat), n ≤ fuel →
    renderNatAux fuel n = (Nat.digits 10 n).reverse.map Nat.digitChar := by
  intro fuel
  induction fuel with
  | zero =>
    intro n hn
    have h0 : n = 0 := Nat.le_zero.mp hn
    subst h0
    simp [renderNatAux]
  | succ fuel ih =>
    intro n hn
    by_cases h0 : n = 0
    · subst h0
      simp [renderNatAux]
    · simp only [renderNatAux, if_neg h0]
      have hlt : n / 10 ≤ fuel := by
        have := Nat.div_lt_self (Nat.pos_of_ne_zero h0) (by norm_num : 1 < 10)
        omega
      rw [ih (n / 10) hlt]
      rw [Nat.digits_def' (by norm_num : 1 < 10) (Nat.pos_of_ne_zero h0)]
      simp

theorem renderNat_eq_digits (n : Nat) :
    renderNat n = if n = 0 then ['0'] else (Nat.digits 10 n).reverse.map Nat.digitChar := by
  rw [renderNat]
  by_cases h0 : n = 0
  · simp [h0]
  · rw [if_neg h0, if_neg h0, renderNatAux_eq_digits n n le_rfl]

theorem parseNat_renderNat (n : Nat) : parseNat (renderNat n) = some n := by
  by_cases h0 : n = 0
  · subst h0; decide
  · have hdig : Nat.digits 10 n ≠ [] := Nat.digits_ne_nil_iff_ne_zero.mpr h0
    have hne : (Nat.digits 10 n).reverse.map Nat.digitChar ≠ [] := by
      simp [hdig]
    rw [renderNat_eq_digits, if_neg h0, parseNat, if_neg hne]
    rw [parseNatAux_digits _ 0 (fun d hd => Nat.digits_lt_base (by norm_num)
      (List.mem_reverse.mp hd))]
    rw [foldl_reverse_ofDigits]
    simp [Nat.ofDigits_digits]

theorem renderNat_ne_nil (n : Nat) : renderNat n ≠ [] := by
  by_cases h0 : n = 0
  · subst h0; decide
  · have hdig : Nat.digits 10 n ≠ [] := Nat.digits_ne_nil_iff_ne_zero.mpr h0
    simp [renderNat_eq_digits, h0, hdig]

theorem renderNat_head_ne_neg (n : Nat) : ∀ c t, renderNat n = c :: t → c ≠ '-' := by
  intro c t h
  by_cases h0 : n = 0
  · subst h0
    have h0' : renderNat 0 = ['0'] := rfl
    rw [h0', List.cons_eq_cons] at h
    rw [← h.1]
    decide
  · rw [renderNat_eq_digits, if_neg h0] at h
    have hc : c ∈ (Nat.digits 10 n).reverse.map Nat.digitChar := by
      rw [h]; simp
    obtain ⟨d, hd, hdc⟩ := List.mem_map.mp hc
    have hd10 : d < 10 :=
      Nat.digits_lt_base (by norm_num) (List.mem_reverse.mp hd)
    have hall : ∀ d, d < 10 → Nat.digitChar d ≠ '-' := by decide
    rw [← hdc]
    exact hall d hd10

theorem parseInt_renderInt (i : Int) : parseInt (renderInt i) = some i := by
  cases i with
  | ofNat n =>
    show parseInt (renderNat n) = some (Int.ofNat n)
    cases h : renderNat n with
    | nil => exact absurd h (renderNat_ne_nil n)
    | cons c t =>
      have hc : c ≠ '-' := renderNat_head_ne_neg n c t h
      have hp : parseInt (c :: t) = (parseNat (c :: t)).map (fun n => (n : Int)) := by
        unfold parseInt
        split
        · rename_i heq
          rw [List.cons_eq_cons] at heq
          exact absurd heq.1 hc
        · rfl
      rw [hp, ← h, parseNat_renderNat]
      rfl
  | negSucc n =>
    show parseInt ('-' :: renderNat (n + 1)) = some (Int.negSucc n)
    have hp : parseInt ('-' :: renderNat (n + 1)) =
        (parseNat (renderNat (n + 1))).map (fun m => -(m : Int)) := rfl
    rw [hp, parseNat_renderNat]
    simp [Int.negSucc_eq]

/-- Per-value round trip: parsing the rendered form of a value at its own
type returns the value. -/
theorem parsePrim_render (v : Value) : parsePrim (tyOf v) (render v) = some v := by
  cases v with
  | vText s => rfl
  | vInt i =>
    simp only [tyOf, render, parsePrim, parseInt_renderInt i]
    rfl
  | vBool b => cases b <;> decide

theorem valueFor_cons_self (p : SField × Value) (ρ : List (SField × Value)) (n : Cell)
    (h : p.1.name = n) : valueFor (p :: ρ) n = p.2 := by
  simp [valueFor, List.find?_cons, h]

theorem valueFor_cons_ne (p : SField × Value) (ρ : List (SField × Value)) (n : Cell)
    (h : p.1.name ≠ n) : valueFor (p :: ρ) n = valueFor ρ n := by
  simp [valueFor, List.find?_cons, h]

theorem stepPair_skip (p : Cell × Cell) :
    ∀ (schema : Schema) (A : List (Option Value)),
    (∀ fl ∈ schema, fl.name ≠ p.1) → stepPair schema A p = .ok A := by
  intro schema
  induction schema with
  | nil => intro A _; rfl
  | cons fl fs ih =>
    intro A hne
    cases A with
    | nil => rfl
    | cons a rest =>
      have h1 : fl.name ≠ p.1 := hne fl (by simp)
      simp only [stepPair, if_neg h1, ih rest (fun x hx => hne x (by simp [hx]))]

theorem stepPair_fill (p : Cell × Cell) (v : Value) :
    ∀ (schema : Schema) (F : SField → Option Value) (fl : SField),
    (headerRow schema).Nodup → fl ∈ schema → fl.name = p.1 → F fl = none →
    parsePrim fl.ty p.2 = some v →
    stepPair schema (schema.map F) p =
      .ok (schema.map (fun f2 => if f2.name = p.1 then some v else F f2)) := by
  intro schema
  induction schema with
  | nil => intro F fl _ hmem _ _ _; exact absurd hmem (by simp)
  | cons f fs ih =>
    intro F fl hnd hmem hname hFfl hparse
    simp only [headerRow, List.map_cons, List.nodup_cons] at hnd
    obtain ⟨hnotin, hnd'⟩ := hnd
    by_cases hf : f.name = p.1
    · have hffl : f = fl := by
        rcases List.mem_cons.mp hmem with h | h
        · exact h.symm
        · exfalso
          apply hnotin
          have h2 : fl.name ∈ fs.map SField.name := List.mem_map_of_mem SField.name h
          rw [hname, ← hf] at h2
          exact h2
      subst hffl
      have htail : ∀ f2 ∈ fs, F f2 = if f2.name = p.1 then some v else F f2 := by
        intro f2 hf2
        have hne : f2.name ≠ p.1 := by
          intro hc
          apply hnotin
          rw [hf, ← hc]
          exact List.mem_map_of_mem SField.name hf2
        simp [hne]
      have hstep : stepPair (f :: fs) (F f :: fs.map F) p = .ok (some v :: fs.map F) := by
        simp only [stepPair, if_pos hf, hFfl, hparse]
      rw [List.map_cons, hstep, List.map_cons]
      congr 1
      congr 1
      · simp [hf]
      · exact List.map_congr_left htail
    · have hmem' : fl ∈ fs := by
        rcases List.mem_cons.mp hmem with h | h
        · exact absurd (h ▸ hname) hf
        · exact h
      have hstep := ih F fl (by simpa [headerRow] using hnd') hmem' hname hFfl hparse
      rw [List.map_cons, List.map_cons]
      simp only [stepPair, if_neg hf, hstep]

theorem decodePairs_map (ρ : List (SField × Value)) :
    ∀ (schema : Schema) (F : SField → Option Value),
    (headerRow schema).Nodup →
    (namesOf ρ).Nodup →
    (∀ p ∈ ρ, p.1 ∈ schema ∧ tyOf p.2 = p.1.ty) →
    (∀ fl ∈ schema, fl.name ∈ namesOf ρ → F fl = none) →
    decodePairs schema (pairsOf ρ) (schema.map F) =
      .ok (schema.map (fun fl =>
        if fl.name ∈ namesOf ρ then some (valueFor ρ fl.name) else F fl)) := by
  induction ρ with
  | nil =>
    intro schema F _ _ _ _
    have hsame : ∀ fl ∈ schema, F fl =
        if fl.name ∈ namesOf ([] : List (SField × Value)) then
          some (valueFor [] fl.name) else F fl := by
      intro fl _
      simp [namesOf]
    rw [show pairsOf ([] : List (SField × Value)) = [] from rfl]
    rw [show decodePairs schema [] (schema.map F) = .ok (schema.map F) from rfl]
    rw [List.map_congr_left hsame]
  | cons p ρ2 ih =>
    intro schema F hnd hρnd hρs hF
    obtain ⟨hmem, hty⟩ := hρs p (by simp)
    have hparse : parsePrim p.1.ty (render p.2) = some p.2 := by
      rw [← hty]; exact parsePrim_render p.2
    have hnn : namesOf (p :: ρ2) = p.1.name :: namesOf ρ2 := rfl
    rw [hnn, List.nodup_cons] at hρnd
    obtain ⟨hheadnotin, hρnd2⟩ := hρnd
    have hFp : F p.1 = none := hF p.1 hmem (by rw [hnn]; exact List.mem_cons_self _ _)
    have hfill := stepPair_fill (p.1.name, render p.2) p.2 schema F p.1 hnd hmem rfl hFp hparse
    have hG : ∀ fl ∈ schema, fl.name ∈ namesOf ρ2 →
        (if fl.name = (p.1.name, render p.2).1 then some p.2 else F fl) = none := by
      intro fl hfl hin
      by_cases h2 : fl.name = p.1.name
      · exact absurd (h2 ▸ hin) hheadnotin
      · simp only [if_neg h2]
        exact hF fl hfl (by rw [hnn]; exact List.mem_cons_of_mem _ hin)
    have hpc : pairsOf (p :: ρ2) = (p.1.name, render p.2) :: pairsOf ρ2 := rfl
    rw [hpc]
    simp only [decodePairs, hfill]
    rw [ih schema _ hnd hρnd2 (fun q hq => hρs q (by simp [hq])) hG]
    congr 1
    apply List.map_congr_left
    intro fl _
    by_cases h1 : fl.name ∈ namesOf ρ2
    · have hne : fl.name ≠ p.1.name := fun hc => hheadnotin (hc ▸ h1)
      have hcons : fl.name ∈ namesOf (p :: ρ2) := by
        rw [hnn]; exact List.mem_cons_of_mem _ h1
      rw [if_pos h1, if_pos hcons, valueFor_cons_ne p ρ2 fl.name (fun hc => hne hc.symm)]
    · by_cases h2 : fl.name = p.1.name
      · have hcons : fl.name ∈ namesOf (p :: ρ2) := by
          rw [hnn, h2]; exact List.mem_cons_self _ _
        rw [if_neg h1, if_pos hcons, if_pos h2, valueFor_cons_self p ρ2 fl.name h2.symm]
      · have hcons : fl.name ∉ namesOf (p :: ρ2) := by
          rw [hnn]
          simp only [List.mem_cons]
          exact fun hc => hc.elim h2 h1
        rw [if_neg h1, if_neg hcons, if_neg h2]

theorem finishAssign_some : ∀ (schema : Schema) (vals : Record),
    schema.length = vals.length →
    finishAssign schema (vals.map some) = .ok vals := by
  intro schema
  induction schema with
  | nil =>
    intro vals h
    cases vals with
    | nil => rfl
    | cons v vs => simp at h
  | cons fl fs ih =>
    intro vals h
    cases vals with
    | nil => simp at h
    | cons v vs =>
      simp only [List.map_cons, finishAssign, ih vs (by simpa using h)]
      rfl

theorem finishAssign_missing : ∀ (schema : Schema) (F : SField → Option Value) (fl : SField),
    schema.find? (fun f2 => (F f2).isNone) = some fl →
    finishAssign schema (schema.map F) = .error (.missingField fl.name) := by
  intro schema
  induction schema with
  | nil => intro F fl h; simp at h
  | cons f fs ih =>
    intro F fl h
    cases hFf : F f with
    | none =>
      have hfind : List.find? (fun f2 => (F f2).isNone) (f :: fs) = some f :=
        List.find?_cons_of_pos fs (by simp [hFf])
      rw [hfind, Option.some_inj] at h
      subst h
      simp only [List.map_cons, finishAssign, hFf]
    | some v =>
      have hfind : List.find? (fun f2 => (F f2).isNone) (f :: fs) =
          List.find? (fun f2 => (F f2).isNone) fs :=
        List.find?_cons_of_neg fs (by simp [hFf])
      rw [hfind] at h
      simp only [List.map_cons, finishAssign, hFf, ih F fl h]
      rfl

theorem typedB_length : ∀ (schema : Schema) (r : Record),
    typedB schema r = true → schema.length = r.length := by
  intro schema
  induction schema with
  | nil =>
    intro r h
    cases r with
    | nil => rfl
    | cons v vs => simp [typedB] at h
  | cons fl fs ih =>
    intro r h
    cases r with
    | nil => simp [typedB] at h
    | cons v vs =>
      simp only [typedB, Bool.and_eq_true] at h
      simp [ih vs h.2]

theorem typedB_zip : ∀ (schema : Schema) (r : Record),
    typedB schema r = true → ∀ q ∈ schema.zip r, tyOf q.2 = q.1.ty := by
  intro schema
  induction schema with
  | nil => intro r _ q hq; simp at hq
  | cons fl fs ih =>
    intro r h q hq
    cases r with
    | nil => simp [typedB] at h
    | cons v vs =>
      simp only [typedB, Bool.and_eq_true, decide_eq_true_eq] at h
      rw [List.zip_cons_cons, List.mem_cons] at hq
      rcases hq with hq | hq
      · rw [hq]; exact h.1
      · exact ih vs h.2 q hq

theorem namesOf_zip (schema : Schema) (r : Record) (h : schema.length = r.length) :
    namesOf (schema.zip r) = headerRow schema := by
  have h1 : namesOf (schema.zip r) = ((schema.zip r).map Prod.fst).map SField.name := by
    rw [List.map_map]
    rfl
  rw [h1, List.map_fst_zip schema r (le_of_eq h), headerRow]

theorem valueFor_zip : ∀ (schema : Schema) (r : Record),
    (headerRow schema).Nodup → schema.length = r.length →
    schema.map (fun fl => valueFor (schema.zip r) fl.name) = r := by
  intro schema
  induction schema with
  | nil =>
    intro r _ h
    cases r with
    | nil => rfl
    | cons v vs => simp at h
  | cons fl fs ih =>
    intro r hnd hlen
    cases r with
    | nil => simp at hlen
    | cons v vs =>
      simp only [headerRow, List.map_cons, List.nodup_cons] at hnd
      obtain ⟨hnotin, hnd'⟩ := hnd
      rw [List.zip_cons_cons, List.map_cons]
      congr 1
      · exact valueFor_cons_self (fl, v) _ fl.name rfl
      · have hstep : ∀ f2 ∈ fs,
            valueFor ((fl, v) :: fs.zip vs) f2.name = valueFor (fs.zip vs) f2.name := by
          intro f2 hf2
          apply valueFor_cons_ne
          intro hc
          exact hnotin (hc ▸ List.mem_map_of_mem SField.name hf2)
        rw [List.map_congr_left hstep]
        exact ih vs (by simpa [headerRow] using hnd') (by simpa using hlen)

/-- Decoding a record's generated header row against its data row returns
the record: the per-row round trip of the codec. -/
theorem decodeRow_roundtrip (schema : Schema) (r : Record)
    (hnd : (headerRow schema).Nodup) (hty : typedB schema r = true) :
    decodeRow schema (headerRow schema) (encodeRow r) = .ok r := by
  have hlen := typedB_length schema r hty
  have hz : (headerRow schema).zip (encodeRow r) = pairsOf (schema.zip r) := by
    rw [headerRow, encodeRow, List.zip_map]
    apply List.map_congr_left
    intro q _
    cases q
    rfl
  have hρnd : (namesOf (schema.zip r)).Nodup := by
    rw [namesOf_zip schema r hlen]; exact hnd
  have hρs : ∀ q ∈ schema.zip r, q.1 ∈ schema ∧ tyOf q.2 = q.1.ty := by
    intro q hq
    constructor
    · cases q
      exact (List.of_mem_zip hq).1
    · exact typedB_zip schema r hty q hq
  have hbind : ∀ (A : List (Option Value)),
      (Except.ok (ε := DecErr) A).bind (finishAssign schema) = finishAssign schema A :=
    fun _ => rfl
  rw [decodeRow, hz]
  rw [decodePairs_map (schema.zip r) schema (fun _ => none) hnd hρnd hρs (fun _ _ _ => rfl)]
  rw [hbind]
  have hall : ∀ fl ∈ schema,
      (if fl.name ∈ namesOf (schema.zip r) then some (valueFor (schema.zip r) fl.name)
        else none) = some (valueFor (schema.zip r) fl.name) := by
    intro fl hfl
    have : fl.name ∈ namesOf (schema.zip r) := by
      rw [namesOf_zip schema r hlen, headerRow]
      exact List.mem_map_of_mem SField.name hfl
    rw [if_pos this]
  rw [List.map_congr_left hall]
  rw [show schema.map (fun fl => some (valueFor (schema.zip r) fl.name)) =
    (schema.map (fun fl => valueFor (schema.zip r) fl.name)).map some from by
      rw [List.map_map]; rfl]
  rw [finishAssign_some schema _ (by simp)]
  rw [valueFor_zip schema r hnd hlen]

theorem zip_namesOf_rowOf (ρ : List (SField × Value)) :
    (namesOf ρ).zip (rowOf ρ) = pairsOf ρ := by
  rw [namesOf, rowOf, List.zip_map']
  rfl

theorem bind_ok_finish (schema : Schema) (A : List (Option Value)) :
    (Except.ok (ε := DecErr) A).bind (finishAssign schema) = finishAssign schema A := rfl

/-- Decoding a row laid out in any column order: each schema field receives
the value its name is associated with in the stored row. -/
theorem decodeRow_byName (schema : Schema) (ρ : List (SField × Value))
    (hnd : (headerRow schema).Nodup) (hρnd : (namesOf ρ).Nodup)
    (hρs : ∀ p ∈ ρ, p.1 ∈ schema ∧ tyOf p.2 = p.1.ty)
    (hcover : ∀ fl ∈ schema, fl.name ∈ namesOf ρ) :
    decodeRow schema (namesOf ρ) (rowOf ρ) =
      .ok (schema.map (fun fl => valueFor ρ fl.name)) := by
  rw [decodeRow, zip_namesOf_rowOf,
    decodePairs_map ρ schema (fun _ => none) hnd hρnd hρs (fun _ _ _ => rfl),
    bind_ok_finish]
  have hall : ∀ fl ∈ schema,
      (if fl.name ∈ namesOf ρ then some (valueFor ρ fl.name) else none) =
        some (valueFor ρ fl.name) := fun fl hfl => if_pos (hcover fl hfl)
  rw [List.map_congr_left hall]
  rw [show schema.map (fun fl => some (valueFor ρ fl.name)) =
      (schema.map (fun fl => valueFor ρ fl.name)).map some from by
    rw [List.map_map]; rfl]
  exact finishAssign_some schema _ (by simp)

theorem find?_ext {α : Type} (p q : α → Bool) : ∀ (l : List α),
    (∀ x ∈ l, p x = q x) → l.find? p = l.find? q := by
  intro l
  induction l with
  | nil => intro _; rfl
  | cons x xs ih =>
    intro h
    by_cases hpx : p x = true
    · rw [List.find?_cons_of_pos xs hpx,
        List.find?_cons_of_pos xs (by rw [← h x (by simp)]; exact hpx)]
    · have hqx : ¬(q x = true) := by rw [← h x (by simp)]; exact hpx
      rw [List.find?_cons_of_neg xs (by simpa using hpx),
        List.find?_cons_of_neg xs (by simpa using hqx),
        ih (fun y hy => h y (by simp [hy]))]

/-- Decoding a row whose columns omit a required schema field fails with a
missing-field error naming the first such field (in declaration order). -/
theorem decodeRow_missingName (schema : Schema) (ρ : List (SField × Value))
    (hnd : (headerRow schema).Nodup) (hρnd : (namesOf ρ).Nodup)
    (hρs : ∀ p ∈ ρ, p.1 ∈ schema ∧ tyOf p.2 = p.1.ty) (f : SField)
    (hfind : schema.find? (fun fl => decide (fl.name ∉ namesOf ρ)) = some f) :
    decodeRow schema (namesOf ρ) (rowOf ρ) = .error (.missingField f.name) := by
  rw [decodeRow, zip_namesOf_rowOf,
    decodePairs_map ρ schema (fun _ => none) hnd hρnd hρs (fun _ _ _ => rfl),
    bind_ok_finish]
  apply finishAssign_missing
  rw [find?_ext _ (fun fl => decide (fl.name ∉ namesOf ρ)) schema ?_]
  · exact hfind
  · intro fl _
    by_cases hm : fl.name ∈ namesOf ρ
    · simp [hm]
    · simp [hm]

theorem mapM_ok {α β : Type} (f : α → Except DecErr β) (g : α → β) :
    ∀ (l : List α), (∀ x ∈ l, f x = .ok (g x)) → l.mapM f = .ok (l.map g) := by
  intro l
  induction l with
  | nil => intro _; rfl
  | cons x xs ih =>
    intro h
    rw [List.mapM_cons, h x (by simp), ih (fun y hy => h y (by simp [hy]))]
    rfl

/-! ## Grid-level facts about the encode paths -/

theorem serializeCSV_eq (schema : Schema) (records : List Record) (hne : records ≠ []) :
    serializeCSV schema records = writeGridCSV (headerRow schema :: records.map encodeRow) := by
  cases records with
  | nil => exact absurd rfl hne
  | cons r rs => rfl

theorem encodeRow_ne_nil (schema : Schema) (r : Record)
    (hs : schema ≠ []) (hty : typedB schema r = true) : encodeRow r ≠ [] := by
  have hlen := typedB_length schema r hty
  rw [encodeRow]
  intro hc
  apply hs
  have hr : r = [] := by
    cases r with
    | nil => rfl
    | cons v vs => simp at hc
  rw [hr] at hlen
  exact List.length_eq_zero.mp (by simpa using hlen)

theorem headerRow_ne_nil (schema : Schema) (hs : schema ≠ []) : headerRow schema ≠ [] := by
  rw [headerRow]
  simpa using hs

/-- With at least one record, the grid `write_page` re-parses from the CSV
buffer is exactly the header row followed by the data rows. -/
theorem writePageValues_eq (schema : Schema) (records : List Record)
    (hs : schema ≠ []) (hty : ∀ r ∈ records, typedB schema r = true) (hne : records ≠ []) :
    writePageValues schema records = headerRow schema :: records.map encodeRow := by
  rw [writePageValues, serializeCSV_eq schema records hne]
  apply parseRecords_writeGridCSV
  intro row hrow
  rcases List.mem_cons.mp hrow with h | h
  · rw [h]
    exact headerRow_ne_nil schema hs
  · obtain ⟨r, hr, hrr⟩ := List.mem_map.mp h
    rw [← hrr]
    exact encodeRow_ne_nil schema r hs (hty r hr)

theorem writePageValues_nil (schema : Schema) : writePageValues schema [] = [] := rfl

/-- Serializing one record and re-parsing yields exactly the header row
followed by the record's data row. -/
theorem parse_serializeOne (schema : Schema) (r : Record)
    (hs : schema ≠ []) (hty : typedB schema r = true) :
    parseRecords (serializeCSV schema [r]) = [headerRow schema, encodeRow r] := by
  rw [serializeCSV_eq schema [r] (by simp)]
  rw [parseRecords_writeGridCSV]
  · rfl
  · intro row hrow
    rcases List.mem_cons.mp hrow with h | h
    · rw [h]; exact headerRow_ne_nil schema hs
    · simp only [List.map_cons, List.map_nil, List.mem_singleton] at h
      rw [h]
      exact encodeRow_ne_nil schema r hs hty

/-- The rows `append_row` sends are exactly the one data row of the record:
the header row generated by the serializer is discarded by the
`has_headers(true)` re-parse. -/
theorem appendRowValues_eq (schema : Schema) (r : Record)
    (hs : schema ≠ []) (hty : typedB schema r = true) :
    appendRowValues schema r = [encodeRow r] := by
  rw [appendRowValues, parse_serializeOne schema r hs hty]
  rfl

theorem mapM_image {α β : Type} (F : β → Except DecErr α) (enc : α → β) :
    ∀ (l : List α), (∀ x ∈ l, F (enc x) = .ok x) → (l.map enc).mapM F = .ok l := by
  intro l
  induction l with
  | nil => intro _; rfl
  | cons x xs ih =>
    intro h
    rw [List.map_cons, List.mapM_cons, h x (by simp), ih (fun y hy => h y (by simp [hy]))]
    rfl

theorem decodeGrid_encoded (schema : Schema) (records : List Record)
    (hnd : (headerRow schema).Nodup)
    (hty : ∀ r ∈ records, typedB schema r = true) :
    decodeGrid schema (headerRow schema :: records.map encodeRow) = .ok records := by
  simp only [decodeGrid]
  apply mapM_image
  intro r hr
  have hlen : (encodeRow r).length = (headerRow schema).length := by
    rw [encodeRow, headerRow]
    simp [typedB_length schema r (hty r hr)]
  rw [if_pos hlen]
  exact decodeRow_roundtrip schema r hnd (hty r hr)

theorem rowsWritable_encoded (schema : Schema) (records : List Record)
    (hty : ∀ r ∈ records, typedB schema r = true) :
    rowsWritable (headerRow schema :: records.map encodeRow) = true := by
  simp only [rowsWritable, List.all_eq_true, decide_eq_true_eq]
  intro row hrow
  obtain ⟨r, hr, hrr⟩ := List.mem_map.mp hrow
  rw [← hrr]
  simp [encodeRow, headerRow, typedB_length schema r (hty r hr)]

/-- The decode stage of `read_all` inverts the header-aware encode: the grid
`write_page` produces (synthetic header as row 0) decodes back to exactly
the records. -/
theorem readDecode_encoded (schema : Schema) (records : List Record)
    (hnd : (headerRow schema).Nodup) (hs : schema ≠ [])
    (hty : ∀ r ∈ records, typedB schema r = true) :
    readDecode schema (writePageValues schema records) = .ok records := by
  rcases eq_or_ne records [] with hrec | hrec
  · subst hrec
    rw [writePageValues_nil]
    rfl
  · rw [writePageValues_eq schema records hs hty hrec, readDecode,
      if_pos (rowsWritable_encoded schema records hty),
      parseRecords_writeGridCSV _ ?_, decodeGrid_encoded schema records hnd hty]
    · rfl
    · intro row hrow
      rcases List.mem_cons.mp hrow with h | h
      · rw [h]; exact headerRow_ne_nil schema hs
      · obtain ⟨r, hr, hrr⟩ := List.mem_map.mp h
        rw [← hrr]
        exact encodeRow_ne_nil schema r hs (hty r hr)

/-! ## The claims -/

/-- C1: for every sequence of records sharing one schema (non-empty, with
distinct field names, records well typed), decoding the grid produced by
the header-aware encode — the synthetic header being row 0 — yields exactly
the records, field for field, for the supported primitive types (text,
integer, boolean), including text values containing commas, quotes or
newlines. -/
theorem C1_encode_decode_roundtrip (schema : Schema) (records : List Record)
    (hnd : (headerRow schema).Nodup) (hs : schema ≠ [])
    (hty : ∀ r ∈ records, typedB schema r = true) :
    readDecode schema (writePageValues schema records) = .ok records :=
  readDecode_encoded schema records hnd hs hty

theorem C1_witness :
    (headerRow exSchema).Nodup ∧ exSchema ≠ [] ∧
    readDecode exSchema (writePageValues exSchema [exRecord]) = .ok [exRecord] :=
  ⟨by decide, by decide,
    C1_encode_decode_roundtrip exSchema [exRecord] (by decide) (by decide) (by decide)⟩

/-- C2 counterexample: with one record, the grid `write_page` sends to the
store's write call does not have exactly one row with the data row first —
it has two rows and row 0 is the header of field names. -/
theorem C2_counterexample :
    ¬((writePageValues exSchema2 [[Value.vInt 7, Value.vText "x".toList]]).length = 1 ∧
      (writePageValues exSchema2 [[Value.vInt 7, Value.vText "x".toList]]).head? =
        some (encodeRow [Value.vInt 7, Value.vText "x".toList])) := by
  decide

/-- C2 amended: the grid `write_page` sends to the store's write call is the
header row of field names followed by the data rows — `len(records) + 1`
rows with row 0 the header — for every non-empty well-typed record
sequence. -/
theorem C2_header_then_rows (schema : Schema) (records : List Record)
    (hs : schema ≠ []) (hne : records ≠ [])
    (hty : ∀ r ∈ records, typedB schema r = true) :
    writePageValues schema records = headerRow schema :: records.map encodeRow ∧
    (writePageValues schema records).length = records.length + 1 := by
  have h := writePageValues_eq schema records hs hty hne
  refine ⟨h, ?_⟩
  rw [h]
  simp

theorem C2_witness :
    exSchema2 ≠ [] ∧ ([[Value.vInt 7, Value.vText "x".toList]] : List Record) ≠ [] ∧
    (writePageValues exSchema2 [[Value.vInt 7, Value.vText "x".toList]] =
      headerRow exSchema2 :: [[Value.vInt 7, Value.vText "x".toList]].map encodeRow ∧
    (writePageValues exSchema2 [[Value.vInt 7, Value.vText "x".toList]]).length =
      ([[Value.vInt 7, Value.vText "x".toList]] : List Record).length + 1) :=
  ⟨by decide, by decide,
    C2_header_then_rows exSchema2 [[Value.vInt 7, Value.vText "x".toList]]
      (by decide) (by decide) (by decide)⟩

/-- C3: `append_row` header-aware-encodes the single record into a two-row
grid (header plus one data row), discards the header row, and issues one
append call to the store carrying exactly the one data row, with the
value-coercion input mode `USER_ENTERED` requested explicitly. -/
theorem C3_append_one_data_row (schema : Schema) (r : Record)
    (hs : schema ≠ []) (hty : typedB schema r = true) :
    parseRecords (serializeCSV schema [r]) = [headerRow schema, encodeRow r] ∧
    append_row_calls schema r = [.appendCall userEntered [encodeRow r]] := by
  refine ⟨parse_serializeOne schema r hs hty, ?_⟩
  rw [append_row_calls, appendRowValues_eq schema r hs hty]

theorem C3_witness :
    exSchema ≠ [] ∧ typedB exSchema exRecord = true ∧
    (parseRecords (serializeCSV exSchema [exRecord]) =
      [headerRow exSchema, encodeRow exRecord] ∧
    append_row_calls exSchema exRecord =
      [.appendCall userEntered [encodeRow exRecord]]) :=
  ⟨by decide, by decide, C3_append_one_data_row exSchema exRecord (by decide) (by decide)⟩

/-- C4 counterexample: when the store's read reports no values container,
`read_all` does not surface a typed error value — it panics (the `unwrap`
on the response's optional `values`). -/
theorem C4_counterexample :
    read_all exBehavior exSchema = .panicked := by
  decide

/-- C4 amended: whenever the store's read returns no values container,
`read_all` panics rather than returning a typed error. -/
theorem C4_unwrap_panics (b : StoreBehavior) (schema : Schema)
    (h : b.getRes = .ok none) : read_all b schema = .panicked := by
  simp only [read_all, h]

theorem C4_witness :
    exBehavior.getRes = .ok none ∧ read_all exBehavior exSchema2 = .panicked :=
  ⟨rfl, C4_unwrap_panics exBehavior exSchema2 rfl⟩

/-- C5: decode assigns cells to record fields by matching the schema's field
names against the grid's header names, not by column position: for a stored
grid whose header lists the schema's field names in any order, each decoded
field receives the value associated with its own name. -/
theorem C5_decode_by_name (schema : Schema) (ρ : List (SField × Value))
    (hperm : (ρ.map Prod.fst).Perm schema)
    (hnd : (headerRow schema).Nodup) (hs : schema ≠ [])
    (hty : ∀ p ∈ ρ, tyOf p.2 = p.1.ty) :
    readDecode schema [namesOf ρ, rowOf ρ] =
      .ok [schema.map (fun fl => valueFor ρ fl.name)] := by
  have hρne : ρ ≠ [] := by
    intro hc
    apply hs
    subst hc
    exact (List.Perm.nil_eq hperm).symm
  have hnames : namesOf ρ = (ρ.map Prod.fst).map SField.name := by
    rw [namesOf, List.map_map]
    rfl
  have hρnd : (namesOf ρ).Nodup := by
    rw [hnames]
    exact ((hperm.map SField.name).nodup_iff).mpr (by rw [← headerRow]; exact hnd)
  have hρs : ∀ p ∈ ρ, p.1 ∈ schema ∧ tyOf p.2 = p.1.ty := by
    intro p hp
    exact ⟨hperm.mem_iff.mp (List.mem_map_of_mem Prod.fst hp), hty p hp⟩
  have hcover : ∀ fl ∈ schema, fl.name ∈ namesOf ρ := by
    intro fl hfl
    rw [hnames]
    exact List.mem_map_of_mem SField.name (hperm.mem_iff.mpr hfl)
  have hlen : (rowOf ρ).length = (namesOf ρ).length := by
    simp [rowOf, namesOf]
  have hwr : rowsWritable [namesOf ρ, rowOf ρ] = true := by
    simp [rowsWritable, hlen]
  have hnonnil : ∀ row ∈ [namesOf ρ, rowOf ρ], row ≠ [] := by
    intro row hrow
    rcases List.mem_cons.mp hrow with h | h
    · rw [h, namesOf]
      simpa using hρne
    · simp only [List.mem_singleton] at h
      rw [h, rowOf]
      simpa using hρne
  have hone : decodeGrid schema [namesOf ρ, rowOf ρ] =
      .ok [schema.map (fun fl => valueFor ρ fl.name)] := by
    simp only [decodeGrid, List.mapM_cons, List.mapM_nil]
    rw [if_pos hlen, decodeRow_byName schema ρ hnd hρnd hρs hcover]
    rfl
  rw [readDecode, if_pos hwr, parseRecords_writeGridCSV _ hnonnil, hone]
  rfl

theorem C5_witness :
    (exPerm.map Prod.fst).Perm exSchema2 ∧ (headerRow exSchema2).Nodup ∧
    readDecode exSchema2 [namesOf exPerm, rowOf exPerm] =
      .ok [exSchema2.map (fun fl => valueFor exPerm fl.name)] :=
  ⟨by decide, by decide,
    C5_decode_by_name exSchema2 exPerm (by decide) (by decide) (by decide) (by decide)⟩

/-- C6 counterexample: with an empty record sequence and a successful clear,
`write_page` still issues a write call (`values_update` with an empty
grid) — the claim that no write call is issued fails. -/
theorem C6_counterexample :
    write_page_calls exBehavior exSchema2 [] =
      [.clearCall, .updateCall userEntered []] ∧
    StoreCall.updateCall userEntered [] ∈ write_page_calls exBehavior exSchema2 [] := by
  decide

/-- C6 amended: for an empty record sequence the clear is still issued, and
a write call is also still issued, carrying an empty values grid. -/
theorem C6_empty_still_writes (b : StoreBehavior) (schema : Schema) (u : Unit)
    (h : b.clearRes = .ok u) :
    write_page_calls b schema [] = [.clearCall, .updateCall userEntered []] := by
  simp only [write_page_calls, h]
  rw [writePageValues_nil]

theorem C6_witness :
    exBehavior.clearRes = .ok () ∧
    write_page_calls exBehavior exSchema [] = [.clearCall, .updateCall userEntered []] :=
  ⟨rfl, C6_empty_still_writes exBehavior exSchema () rfl⟩

/-- C7: in `write_page` the clear strictly precedes the write: the first
store call is always the clear; the update is issued only after the clear
succeeded; and when the clear fails, the operation aborts surfacing that
error and no write call is issued. -/
theorem C7_clear_before_write (b : StoreBehavior) (schema : Schema) (records : List Record) :
    (write_page_calls b schema records).head? = some .clearCall ∧
    (∀ e, b.clearRes = .error e →
      write_page_calls b schema records = [.clearCall] ∧
      write_page_result b schema records = .error e) ∧
    (∀ u, b.clearRes = .ok u →
      write_page_calls b schema records =
        [.clearCall, .updateCall userEntered (writePageValues schema records)]) := by
  refine ⟨?_, ?_, ?_⟩
  · cases hc : b.clearRes <;> simp [write_page_calls, hc]
  · intro e he
    constructor
    · simp [write_page_calls, he]
    · simp [write_page_result, he]
  · intro u hu
    simp [write_page_calls, hu]

theorem C7_witness :
    exBehaviorFail.clearRes = .error ⟨7⟩ ∧
    (write_page_calls exBehaviorFail exSchema [] = [.clearCall] ∧
    write_page_result exBehaviorFail exSchema [] = .error ⟨7⟩) :=
  ⟨rfl, (C7_clear_before_write exBehaviorFail exSchema []).2.1 ⟨7⟩ rfl⟩

/-- C8: decoding a grid whose header omits a field name required by the
schema fails with the missing-field error carrying that field's name (the
first missing field in declaration order), not a generic parse failure. -/
theorem C8_missing_column (schema : Schema) (ρ : List (SField × Value)) (f : SField)
    (hnd : (headerRow schema).Nodup)
    (hρnd : (namesOf ρ).Nodup)
    (hρs : ∀ p ∈ ρ, p.1 ∈ schema ∧ tyOf p.2 = p.1.ty)
    (hρne : ρ ≠ [])
    (hfind : schema.find? (fun fl => decide (fl.name ∉ namesOf ρ)) = some f) :
    readDecode schema [namesOf ρ, rowOf ρ] = .error (.dec (.missingField f.name)) := by
  have hlen : (rowOf ρ).length = (namesOf ρ).length := by
    simp [rowOf, namesOf]
  have hwr : rowsWritable [namesOf ρ, rowOf ρ] = true := by
    simp [rowsWritable, hlen]
  have hnonnil : ∀ row ∈ [namesOf ρ, rowOf ρ], row ≠ [] := by
    intro row hrow
    rcases List.mem_cons.mp hrow with h | h
    · rw [h, namesOf]
      simpa using hρne
    · simp only [List.mem_singleton] at h
      rw [h, rowOf]
      simpa using hρne
  have hone : decodeGrid schema [namesOf ρ, rowOf ρ] =
      .error (.missingField f.name) := by
    simp only [decodeGrid, List.mapM_cons, List.mapM_nil]
    rw [if_pos hlen, decodeRow_missingName schema ρ hnd hρnd hρs f hfind]
    rfl
  rw [readDecode, if_pos hwr, parseRecords_writeGridCSV _ hnonnil, hone]
  rfl

theorem C8_witness :
    (headerRow exSchema2).Nodup ∧ exRhoA ≠ [] ∧
    exSchema2.find? (fun fl => decide (fl.name ∉ namesOf exRhoA)) =
      some ⟨"b".toList, .tyText⟩ ∧
    readDecode exSchema2 [namesOf exRhoA, rowOf exRhoA] =
      .error (.dec (.missingField "b".toList)) :=
  ⟨by decide, by decide, by decide,
    C8_missing_column exSchema2 exRhoA ⟨"b".toList, .tyText⟩
      (by decide) (by decide) (by decide) (by decide) (by decide)⟩

/-- C9: every non-empty grid produced by the encode path is rectangular:
each row of the grid `write_page` sends, and each row `append_row` sends,
has exactly the schema's field count of cells. -/
theorem C9_rectangular (schema : Schema) (records : List Record) (r : Record)
    (hs : schema ≠ []) (hty : ∀ x ∈ records, typedB schema x = true)
    (htyr : typedB schema r = true) :
    (∀ row ∈ writePageValues schema records, row.length = schema.length) ∧
    (∀ row ∈ appendRowValues schema r, row.length = schema.length) := by
  constructor
  · intro row hrow
    rcases eq_or_ne records [] with hrec | hrec
    · subst hrec
      rw [writePageValues_nil] at hrow
      simp at hrow
    · rw [writePageValues_eq schema records hs hty hrec] at hrow
      rcases List.mem_cons.mp hrow with h | h
      · rw [h, headerRow]
        simp
      · obtain ⟨x, hx, hxx⟩ := List.mem_map.mp h
        rw [← hxx, encodeRow, List.length_map]
        exact (typedB_length schema x (hty x hx)).symm
  · intro row hrow
    rw [appendRowValues_eq schema r hs htyr] at hrow
    simp only [List.mem_singleton] at hrow
    rw [hrow, encodeRow, List.length_map]
    exact (typedB_length schema r htyr).symm

theorem C9_witness :
    exSchema ≠ [] ∧ typedB exSchema exRecord = true ∧
    (encodeRow exRecord).length = exSchema.length :=
  ⟨by decide, by decide,
    (C9_rectangular exSchema [exRecord] exRecord (by decide) (by decide) (by decide)).2
      (encodeRow exRecord)
      (by rw [appendRowValues_eq exSchema exRecord (by decide) (by decide)]; simp)⟩

/-- C10: `append_row` issues its append call with exactly one data row even
when the record's text fields contain embedded newlines, commas or double
quotes: the CSV quoting keeps one record on one row through the
encode-and-reparse. -/
theorem C10_append_single_row (schema : Schema) (r : Record)
    (hs : schema ≠ []) (hty : typedB schema r = true) :
    (appendRowValues schema r).length = 1 := by
  rw [appendRowValues_eq schema r hs hty]
  rfl

theorem C10_witness :
    exSchema ≠ [] ∧ typedB exSchema exRecord = true ∧
    (appendRowValues exSchema exRecord).length = 1 :=
  ⟨by decide, by decide, C10_append_single_row exSchema exRecord (by decide) (by decide)⟩
